import Mathlib

/-!
Verification development for the "Data Sweeper" file-conversion utility
(`src/growth_mindset_challenge/app.py`).

The program is a linear script over pandas DataFrames: ingest CSV/XLSX
uploads, optional column projection, optional cleaning (drop duplicates,
mean-fill of numeric columns), optional visualization, and export to
CSV/XLSX with a rewritten filename and MIME type.

The embedding models the Table data type (ordered named columns, rows of
typed scalars: number, text, or missing) and each operation of the script.
Operations whose body is a call into a library that is not part of the
repository (pandas, os.path, str.replace) are modelled from their
documented semantics, as described by the specification; each such
definition says so in its doc comment.
-/

set_option maxHeartbeats 1000000

namespace DataSweeper

/-- A scalar cell of a table: a number, a text value, or the missing
marker (pandas NaN). Numbers are modelled as rationals. -/
inductive Cell where
  | num (q : Rat)
  | str (s : String)
  | missing
deriving DecidableEq

/-- A row is the ordered list of cell values, aligned with the column list. -/
abbrev Row := List Cell

/-- The working in-memory dataset of one file: ordered column names and
ordered rows of cells. -/
structure Table where
  cols : List String
  rows : List Row
deriving DecidableEq

/-- Well-formedness: every row has exactly one cell per column. -/
def Table.WF (t : Table) : Bool :=
  t.rows.all (fun r => r.length = t.cols.length)

/- ## Character-list utilities (modelling Python string / CSV splitting) -/

/-- Split a character list on a separator character; always returns at
least one (possibly empty) group, like Python `s.split(sep)`. -/
def splitOnChar (sep : Char) : List Char → List (List Char)
  | [] => [[]]
  | c :: cs =>
    match splitOnChar sep cs with
    | [] => [[]]
    | g :: gs => if c = sep then [] :: g :: gs else (c :: g) :: gs

/-- Join character-list groups with a separator character, the inverse of
splitting. -/
def joinChar (sep : Char) : List (List Char) → List Char
  | [] => []
  | [g] => g
  | g :: g2 :: gs => g ++ sep :: joinChar sep (g2 :: gs)

/- ## CSV ingest and export

Modelled from the spec: the script parses with pandas `read_csv` and
serializes with `DataFrame.to_csv(index=False)`; pandas itself is not part
of the repository, so the CSV grammar is taken from the specification
(section 4.5): comma-separated fields, newline-terminated records, header
row present, row index not emitted. -/

/-- A raw parsed CSV table: header fields and data rows, all as raw
character lists. -/
structure RawTable where
  cols : List (List Char)
  rows : List (List (List Char))
deriving DecidableEq

/-- Modelled from the spec: pandas `read_csv` (the repository calls it but
does not define it). Splits the input into newline-separated records
(ignoring one trailing newline), takes the first record as the header row
and splits every record into comma-separated fields. Fails on empty
input. -/
def dropTrailingBlank (ls : List (List Char)) : List (List Char) :=
  if ls.getLast? = some [] then ls.dropLast else ls

def parseCSV (s : List Char) : Option RawTable :=
  match dropTrailingBlank (splitOnChar '\n' s) with
  | [] => none
  | h :: rest => some ⟨splitOnChar ',' h, rest.map (splitOnChar ',')⟩

/-- Modelled from the spec: `DataFrame.to_csv(index=False)` (section 4.5):
header row first, comma-separated fields, each record terminated by a
newline, no row index column. -/
def serializeCSV (t : RawTable) : List Char :=
  joinChar '\n' (joinChar ',' t.cols :: t.rows.map (joinChar ',')) ++ ['\n']

/-- A valid CSV byte sequence: nonempty, newline-terminated, no blank
records, no quote or carriage-return bytes, rectangular (every record has
as many fields as the header), and distinct header names. -/
def validCSV (s : List Char) : Bool :=
  !s.isEmpty && s.getLast? = some '\n' &&
  (let ls := splitOnChar '\n' s.dropLast
   ls.all (fun l => !l.isEmpty && l.all (fun c => c ≠ '\u0022' && c ≠ '\r')) &&
   match ls with
   | [] => false
   | h :: rest =>
     decide (splitOnChar ',' h).Nodup &&
     rest.all (fun r => (splitOnChar ',' r).length = (splitOnChar ',' h).length))

/- ## Project (column selection) -/

/-- The cell of row `r` under the column named `c` of table `t`. -/
def cellAt (t : Table) (r : Row) (c : String) : Cell :=
  r.getD (t.cols.indexOf c) Cell.missing

/-- The cells of column index `j`, top to bottom. -/
def colCells (t : Table) (j : Nat) : List Cell :=
  t.rows.map (fun r => r.getD j Cell.missing)

/-- Column projection, from the source line
`df = df[selected_columns] if selected_columns else df`.
Modelled from pandas label-list indexing: the result holds the selected
columns in the order of the selection list; an empty selection leaves the
table unchanged. -/
def project (t : Table) (sel : List String) : Table :=
  if sel = [] then t
  else ⟨sel, t.rows.map (fun r => sel.map (fun c => cellAt t r c))⟩

/- ## Deduplicate -/

/-- Row deduplication, from the source line
`df.drop_duplicates(inplace=True)`. Modelled from pandas semantics with
the default `keep="first"`: of each group of fully equal rows only the
first is retained, in place. -/
def dedupRows : List Row → List Row
  | [] => []
  | r :: rs => r :: dedupRows (rs.filter (fun x => decide (x ≠ r)))
termination_by l => l.length
decreasing_by
  exact Nat.lt_succ_of_le (List.length_filter_le _ _)

/-- The Deduplicate operation on a table. -/
def Table.dropDuplicates (t : Table) : Table :=
  ⟨t.cols, dedupRows t.rows⟩

/-- Spec-side reading of Deduplicate: scan the rows left to right and keep
a row exactly when it does not equal any earlier row. `earlier` holds the
rows already scanned. -/
def firstOccurrencesAux (earlier : List Row) : List Row → List Row
  | [] => []
  | r :: rs =>
    if r ∈ earlier then firstOccurrencesAux earlier rs
    else r :: firstOccurrencesAux (earlier ++ [r]) rs

/-- Rows that are not exact duplicates of an earlier row. -/
def firstOccurrences (l : List Row) : List Row :=
  firstOccurrencesAux [] l

/- ## Fill missing values -/

/-- A cell that may appear in a column of numeric dtype: a number or the
missing marker. -/
def Cell.isNumOrMissing : Cell → Bool
  | Cell.num _ => true
  | Cell.missing => true
  | Cell.str _ => false

/-- Column `j` has numeric dtype, from the source line
`numeric_cols = df.select_dtypes(include=["number"]).columns`. Modelled
from pandas dtype inference: a parsed column is numeric exactly when every
cell is a number or missing (an all-missing column is a numeric NaN
column; any text cell makes the column non-numeric). -/
def colNumeric (t : Table) (j : Nat) : Bool :=
  (colCells t j).all Cell.isNumOrMissing

/-- The indices of the numeric columns of the table. -/
def numericIdxs (t : Table) : List Nat :=
  (List.range t.cols.length).filter (fun j => colNumeric t j)

/-- The non-missing values of column `j`. -/
def colVals (t : Table) (j : Nat) : List Rat :=
  (colCells t j).filterMap (fun c =>
    match c with
    | Cell.num q => some q
    | _ => none)

/-- The per-column mean pandas computes (`df[numeric_cols].mean()`,
skipping missing values): the sum of the non-missing values divided by
their count, or the missing marker (NaN) when every value is missing. -/
def colMean (t : Table) (j : Nat) : Option Rat :=
  if colVals t j = [] then none
  else some ((colVals t j).sum / ((colVals t j).length : Rat))

/-- `fillna` on one cell: a missing cell takes the fill value when there
is one (filling with NaN leaves the cell missing); other cells are kept. -/
def fillCell (m : Option Rat) : Cell → Cell
  | Cell.missing =>
    match m with
    | some q => Cell.num q
    | none => Cell.missing
  | c => c

/-- The Fill-missing-values operation, from the source lines
`numeric_cols = df.select_dtypes(include=["number"]).columns` /
`if not numeric_cols.empty:` /
`df[numeric_cols] = df[numeric_cols].fillna(df[numeric_cols].mean())`
(else a warning is shown). Returns the updated table together with `true`
when the success message was shown and `false` when the
no-numeric-columns warning was shown instead. -/
def fillMissingValues (t : Table) : Table × Bool :=
  if numericIdxs t = [] then (t, false)
  else
    (⟨t.cols, t.rows.map (fun r => r.mapIdx (fun j c =>
      if colNumeric t j then fillCell (colMean t j) c else c))⟩, true)

/- ## Conversion branch: filename and MIME type -/

/-- The index of the last occurrence of a character in a character list. -/
def lastIdxOf (c : Char) : List Char → Option Nat
  | [] => none
  | x :: xs =>
    match lastIdxOf c xs with
    | some i => some (i + 1)
    | none => if x = c then some 0 else none

/-- Modelled from CPython os.path.splitext (called by the source, not
defined in the repository): the extension is the suffix starting at the
last dot, unless every character before that dot is itself a dot (so
dotfiles such as ".bashrc" have no extension). Upload names carry no
directory separators. -/
def splitextExt (s : List Char) : List Char :=
  match lastIdxOf '.' s with
  | none => []
  | some d => if (List.range d).any (fun i => s.getD i '.' ≠ '.') then s.drop d else []

/-- file_ext from the source line
`file_ext = os.path.splitext(file.name)[-1].lower()`. -/
def fileExt (name : List Char) : List Char :=
  (splitextExt name).map Char.toLower

/-- Modelled from Python str.replace for a nonempty pattern: every
left-to-right non-overlapping occurrence of the pattern is replaced. The
fuel argument only bounds the recursion and is always at least the string
length at call sites. -/
def replaceAux (pat rep : List Char) : Nat → List Char → List Char
  | _, [] => []
  | 0, s => s
  | fuel + 1, c :: rest =>
    if pat ≠ [] ∧ pat.isPrefixOf (c :: rest) = true
    then rep ++ replaceAux pat rep fuel ((c :: rest).drop pat.length)
    else c :: replaceAux pat rep fuel rest

/-- Python `s.replace(pat, rep)` for nonempty `pat`. -/
def pythonReplace (s pat rep : List Char) : List Char :=
  replaceAux pat rep s.length s

/-- The target format of the conversion radio button. -/
inductive TargetFormat where
  | csv
  | excel
deriving DecidableEq

/-- The extension written by each conversion branch of the source. -/
def targetExt : TargetFormat → List Char
  | TargetFormat.csv => ".csv".data
  | TargetFormat.excel => ".xlsx".data

/-- The MIME type passed to the download button by each conversion branch
of the source. -/
def mimeType : TargetFormat → String
  | TargetFormat.csv => "text/csv"
  | TargetFormat.excel => "application/vnd.openxmlformats-officedocument.spreadsheetml.sheet"

/-- The output filename, from the source lines
`file_name = file.name.replace(file_ext, ".csv")` and
`file_name = file.name.replace(file_ext, ".xlsx")`: every occurrence of
the lowercased extension inside the name is replaced by the target
extension. -/
def outputFileName (name : List Char) (fmt : TargetFormat) : List Char :=
  pythonReplace name (fileExt name) (targetExt fmt)

/- ## The per-file pipeline and the batch loop -/

/-- An uploaded file: declared name and byte content. -/
structure UploadedFile where
  name : List Char
  content : List Char
deriving DecidableEq

/-- The widget state for one file: chosen columns, whether each cleaning
button was pressed, and the conversion radio selection. -/
structure FileOptions where
  selection : List String
  dedup : Bool
  fill : Bool
  target : TargetFormat
deriving DecidableEq

/-- Decimal value of a digit string. -/
def digitsVal (ds : List Char) : Nat :=
  ds.foldl (fun a c => a * 10 + (c.toNat - 48)) 0

/-- Modelled from the spec: pandas numeric type inference on a CSV field
(not in the repository), simplified to plain decimal numerals — an
optional minus sign, an integer part, and an optional fractional part. -/
def parseDecimal (s : List Char) : Option Rat :=
  let core := fun (u : List Char) =>
    match splitOnChar '.' u with
    | [ip] =>
      if ip ≠ [] ∧ ip.all Char.isDigit then some ((digitsVal ip : Rat)) else none
    | [ip, fp] =>
      if ip ≠ [] ∧ fp ≠ [] ∧ ip.all Char.isDigit ∧ fp.all Char.isDigit
      then some ((digitsVal ip : Rat) + (digitsVal fp : Rat) / (10 : Rat) ^ fp.length)
      else none
    | _ => none
  match s with
  | '-' :: rest => (core rest).map (fun q => -q)
  | _ => core s

/-- Modelled from the spec: a parsed CSV field becomes a typed scalar —
empty fields are missing, numerals become numbers, anything else is
text. -/
def inferCell (f : List Char) : Cell :=
  if f = [] then Cell.missing
  else
    match parseDecimal f with
    | some q => Cell.num q
    | none => Cell.str ⟨f⟩

/-- The typed table a raw parsed CSV produces. -/
def toTyped (raw : RawTable) : Table :=
  ⟨raw.cols.map (fun c => (⟨c⟩ : String)), raw.rows.map (fun r => r.map inferCell)⟩

/-- Fuel-bounded decimal digit rendering of a natural number. -/
def natDigits (fuel n : Nat) : List Char :=
  match fuel with
  | 0 => []
  | fuel + 1 =>
    if n < 10 then [Char.ofNat (48 + n)]
    else natDigits fuel (n / 10) ++ [Char.ofNat (48 + n % 10)]

/-- Decimal rendering of a natural number. -/
def renderNat (n : Nat) : List Char :=
  natDigits (n + 1) n

/-- Decimal rendering of an integer. -/
def renderInt (i : Int) : List Char :=
  if i < 0 then '-' :: renderNat i.natAbs else renderNat i.natAbs

/-- Modelled from the spec: rendering of one scalar for CSV export; the
exact digit formatting of non-integral numbers is immaterial to the
claims. -/
def renderCell : Cell → List Char
  | Cell.missing => []
  | Cell.str s => s.data
  | Cell.num q => if q.den = 1 then renderInt q.num else renderInt q.num ++ '/' :: renderNat q.den

/-- The raw field table a typed table serializes to. -/
def toRaw (t : Table) : RawTable :=
  ⟨t.cols.map String.data, t.rows.map (fun r => r.map renderCell)⟩

/-- Ingest a CSV byte sequence into the typed Table and immediately export
that Table back to CSV — the composition the script performs when a CSV
upload is converted back to CSV. -/
def ingestExportCSV (s : List Char) : Option (List Char) :=
  (parseCSV s).map (fun raw => serializeCSV (toRaw (toTyped raw)))

/-- A CSV field is canonical when the typed-cell normalization of ingest
and export returns it unchanged: empty (missing), a numeral already in
canonical decimal form, or non-numeric text. -/
def canonicalField (f : List Char) : Bool :=
  renderCell (inferCell f) = f

/-- Every data field of the CSV byte sequence is canonical (the header row
is not typed, so it is exempt). -/
def canonicalCSV (s : List Char) : Bool :=
  ((splitOnChar '\n' s.dropLast).tail).all
    (fun l => (splitOnChar ',' l).all canonicalField)

/-- The bytes or workbook a conversion produces. The spec describes the
spreadsheet output as a single-sheet workbook holding the header row and
the data rows, so the workbook payload is the table itself. -/
inductive ExportPayload where
  | csvBytes (b : List Char)
  | workbook (t : Table)
deriving DecidableEq

/-- The export step of the conversion branch. -/
def exportTable (t : Table) : TargetFormat → ExportPayload
  | TargetFormat.csv => ExportPayload.csvBytes (serializeCSV (toRaw t))
  | TargetFormat.excel => ExportPayload.workbook t

/-- The outcome the per-file loop body produces for one file. -/
inductive Outcome where
  | unsupported (ext : List Char)
  | readFailure
  | processed (t : Table) (fileName : List Char) (mime : String) (payload : ExportPayload)
deriving DecidableEq

/-- One iteration of the per-file loop of the source: an unsupported
extension reports the error and continues (no downstream step), a parse
failure likewise; otherwise the table flows through Project, the enabled
Clean steps and the conversion branch. `pd.read_excel` is not part of the
repository, so the xlsx parser is a parameter. -/
def processFile (parseXlsx : List Char → Option RawTable) (f : UploadedFile)
    (o : FileOptions) : Outcome :=
  if fileExt f.name = ".csv".data ∨ fileExt f.name = ".xlsx".data then
    match (if fileExt f.name = ".csv".data then parseCSV f.content else parseXlsx f.content) with
    | none => Outcome.readFailure
    | some raw =>
      let t1 := project (toTyped raw) o.selection
      let t2 := if o.dedup then Table.dropDuplicates t1 else t1
      let t3 := if o.fill then (fillMissingValues t2).1 else t2
      Outcome.processed t3 (outputFileName f.name o.target) (mimeType o.target)
        (exportTable t3 o.target)
  else Outcome.unsupported (fileExt f.name)

/-- The per-file loop over the uploaded batch: each file is processed
independently with its own widget options. -/
def processBatch (parseXlsx : List Char → Option RawTable)
    (batch : List (UploadedFile × FileOptions)) : List Outcome :=
  batch.map (fun p => processFile parseXlsx p.1 p.2)

/- ## Theorems -/

theorem splitOnChar_ne_nil (sep : Char) (s : List Char) : splitOnChar sep s ≠ [] := by
  cases s with
  | nil => simp [splitOnChar]
  | cons c cs =>
    simp only [splitOnChar]
    cases h : splitOnChar sep cs with
    | nil => simp
    | cons g gs =>
      by_cases hc : c = sep <;> simp [hc]

theorem joinChar_splitOnChar (sep : Char) (s : List Char) :
    joinChar sep (splitOnChar sep s) = s := by
  induction s with
  | nil => rfl
  | cons c cs ih =>
    simp only [splitOnChar]
    cases h : splitOnChar sep cs with
    | nil => exact absurd h (splitOnChar_ne_nil sep cs)
    | cons g gs =>
      rw [h] at ih
      by_cases hc : c = sep
      · subst hc
        simp only [if_pos rfl, joinChar, List.nil_append]
        rw [ih]
      · simp only [if_neg hc]
        cases gs with
        | nil =>
          simp only [joinChar] at ih ⊢
          rw [ih]
        | cons g2 gs2 =>
          simp only [joinChar] at ih ⊢
          rw [List.cons_append, ih]

theorem map_joinChar_splitOnChar (sep : Char) (l : List (List Char)) :
    l.map (fun r => joinChar sep (splitOnChar sep r)) = l := by
  induction l with
  | nil => rfl
  | cons a as ih => simp [joinChar_splitOnChar, ih]

theorem splitOnChar_append_sep (sep : Char) (s : List Char) :
    splitOnChar sep (s ++ [sep]) = splitOnChar sep s ++ [[]] := by
  induction s with
  | nil => simp [splitOnChar]
  | cons c cs ih =>
    cases h : splitOnChar sep cs with
    | nil => exact absurd h (splitOnChar_ne_nil sep cs)
    | cons g gs =>
      by_cases hc : c = sep
      · subst hc
        simp [splitOnChar, ih, h]
      · simp [splitOnChar, ih, h, hc]

theorem validCSV_decompose (s : List Char) (h : validCSV s = true) :
    s.dropLast ++ ['\n'] = s := by
  have hne : s ≠ [] := by
    intro hnil
    rw [hnil] at h
    exact absurd h (by decide)
  have hlast : s.getLast? = some '\n' := by
    simp only [validCSV, Bool.and_eq_true, decide_eq_true_eq] at h
    exact h.1.2
  have h1 : s.dropLast ++ [s.getLast hne] = s := List.dropLast_append_getLast hne
  rwa [(List.getLast_eq_iff_getLast?_eq_some hne).mpr hlast] at h1

theorem parseCSV_append_newline (body hd : List Char) (rest : List (List Char))
    (hb : splitOnChar '\n' body = hd :: rest) :
    parseCSV (body ++ ['\n']) = some ⟨splitOnChar ',' hd, rest.map (splitOnChar ',')⟩ := by
  have h1 : dropTrailingBlank (splitOnChar '\n' (body ++ ['\n'])) = hd :: rest := by
    rw [splitOnChar_append_sep, hb, dropTrailingBlank]
    rw [show (hd :: rest) ++ [([] : List Char)] = (hd :: rest) ++ [[]] from rfl,
      List.getLast?_concat]
    simp only [if_pos]
    exact List.dropLast_concat
  simp only [parseCSV, h1]

theorem serializeCSV_split (body hd : List Char) (rest : List (List Char))
    (hb : splitOnChar '\n' body = hd :: rest) :
    serializeCSV ⟨splitOnChar ',' hd, rest.map (splitOnChar ',')⟩ = body ++ ['\n'] := by
  simp only [serializeCSV, List.map_map]
  have hmm : List.map (joinChar ',' ∘ splitOnChar ',') rest = rest :=
    map_joinChar_splitOnChar ',' rest
  rw [hmm, joinChar_splitOnChar ',' hd]
  have hjoin : joinChar '\n' (hd :: rest) = body := by
    rw [← hb, joinChar_splitOnChar]
  rw [hjoin]

theorem toRaw_toTyped (raw : RawTable)
    (hcanon : ∀ r ∈ raw.rows, ∀ f ∈ r, renderCell (inferCell f) = f) :
    toRaw (toTyped raw) = raw := by
  cases raw with
  | mk cols rows =>
    simp only [toTyped, toRaw, List.map_map]
    congr 1
    · have h1 : ∀ c ∈ cols, (String.data ∘ fun c0 => (⟨c0⟩ : String)) c = c :=
        fun c _ => rfl
      rw [List.map_congr_left h1]
      simp
    · have h2 : ∀ r ∈ rows, (List.map renderCell ∘ List.map inferCell) r = r := by
        intro r hr
        simp only [Function.comp, List.map_map]
        have h3 : ∀ f ∈ r, (renderCell ∘ inferCell) f = f :=
          fun f hf => hcanon r hr f hf
        rw [List.map_congr_left h3]
        simp
      rw [List.map_congr_left h2]
      simp

/-- C1 fails as stated: the byte sequence "a\n01\n" is a valid CSV, yet
ingesting it into the typed Table and exporting that Table back to CSV
yields "a\n1\n" — the numeral field 01 is normalized to the number 1 — so
the original data is not reproduced exactly. -/
theorem csv_roundtrip_cex :
    validCSV ("a\n01\n".data) = true ∧
      ingestExportCSV ("a\n01\n".data) = some ("a\n1\n".data) ∧
      some ("a\n1\n".data) ≠ some ("a\n01\n".data) := by
  refine ⟨by decide, ?_, by decide⟩
  decide

/-- C1 (amended): for every valid CSV input byte sequence whose data
fields are all canonical — left unchanged by the typed-scalar
normalization that ingest applies — parsing it with Ingest into the typed
Table and serializing that Table with Export(CSV) reproduces the original
byte sequence exactly: the same column names in the same order, the same
cell values, and the same row order. Numeral fields not in canonical form
(such as 01) are normalized instead. -/
theorem csv_roundtrip_canonical (s : List Char) (hv : validCSV s = true)
    (hc : canonicalCSV s = true) : ingestExportCSV s = some s := by
  have hs : s.dropLast ++ ['\n'] = s := validCSV_decompose s hv
  rw [← hs]
  cases hb : splitOnChar '\n' s.dropLast with
  | nil => exact absurd hb (splitOnChar_ne_nil '\n' s.dropLast)
  | cons hd rest =>
    have hc2 : rest.all (fun l => (splitOnChar ',' l).all canonicalField) = true := by
      rw [canonicalCSV, hb] at hc
      simpa using hc
    have hcanon : ∀ r ∈ rest.map (splitOnChar ','), ∀ f ∈ r,
        renderCell (inferCell f) = f := by
      intro r hr f hf
      rw [List.mem_map] at hr
      obtain ⟨l, hl, hrl⟩ := hr
      have h3 := List.all_eq_true.mp hc2 l hl
      have h4 := List.all_eq_true.mp h3 f (by rw [← hrl] at hf; exact hf)
      rw [canonicalField] at h4
      exact of_decide_eq_true h4
    rw [ingestExportCSV, parseCSV_append_newline s.dropLast hd rest hb]
    simp only [Option.map]
    rw [toRaw_toTyped ⟨splitOnChar ',' hd, rest.map (splitOnChar ',')⟩ hcanon]
    rw [serializeCSV_split s.dropLast hd rest hb]

theorem getD_map_lt {α β : Type} (g : α → β) (l : List α) (j : Nat) (hj : j < l.length)
    (d : β) (d0 : α) : (l.map g).getD j d = g (l.getD j d0) := by
  rw [List.getD_eq_getElem?_getD, List.getD_eq_getElem?_getD, List.getElem?_map,
    List.getElem?_eq_getElem hj]
  simp

theorem dedupRows_sublist (l : List Row) : List.Sublist (dedupRows l) l := by
  induction l using dedupRows.induct with
  | case1 => simp [dedupRows]
  | case2 r rs ih =>
    rw [dedupRows]
    exact List.Sublist.cons₂ r (ih.trans (List.filter_sublist rs))

theorem dedupRows_nodup (l : List Row) : (dedupRows l).Nodup := by
  induction l using dedupRows.induct with
  | case1 => simp [dedupRows]
  | case2 r rs ih =>
    rw [dedupRows, List.nodup_cons]
    refine ⟨?_, ih⟩
    intro hmem
    have hx : r ∈ rs.filter (fun x => decide (x ≠ r)) := (dedupRows_sublist _).subset hmem
    rw [List.mem_filter] at hx
    simp at hx

theorem dedupRows_of_nodup (l : List Row) (h : l.Nodup) : dedupRows l = l := by
  induction l with
  | nil => simp [dedupRows]
  | cons r rs ih =>
    rw [List.nodup_cons] at h
    rw [dedupRows]
    have hf : rs.filter (fun x => decide (x ≠ r)) = rs :=
      List.filter_eq_self.mpr (fun x hx => by
        simp only [decide_eq_true_eq]
        exact fun he => h.1 (he ▸ hx))
    rw [hf, ih h.2]

theorem firstOccurrencesAux_eq (l : List Row) : ∀ earlier : List Row,
    firstOccurrencesAux earlier l =
      dedupRows (l.filter (fun x => decide (x ∉ earlier))) := by
  induction l with
  | nil => intro earlier; simp [firstOccurrencesAux, dedupRows]
  | cons r rs ih =>
    intro earlier
    by_cases hr : r ∈ earlier
    · rw [firstOccurrencesAux, if_pos hr]
      have hfilter : (r :: rs).filter (fun x => decide (x ∉ earlier)) =
          rs.filter (fun x => decide (x ∉ earlier)) := by
        simp [hr]
      rw [hfilter, ih]
    · rw [firstOccurrencesAux, if_neg hr]
      have hfilter : (r :: rs).filter (fun x => decide (x ∉ earlier)) =
          r :: rs.filter (fun x => decide (x ∉ earlier)) := by
        simp [hr]
      rw [hfilter, dedupRows]
      congr 1
      rw [ih (earlier ++ [r]), List.filter_filter]
      congr 1
      apply List.filter_congr
      intro x _
      simp [List.mem_append, not_or, and_comm]

theorem dedupRows_eq_firstOccurrences (l : List Row) :
    dedupRows l = firstOccurrences l := by
  rw [firstOccurrences, firstOccurrencesAux_eq]
  have hf : l.filter (fun x => decide (x ∉ ([] : List Row))) = l := by simp
  rw [hf]

/-- C3: applying Project with an empty column selection is a no-op: the
original table, with all its columns, is returned unchanged. -/
theorem project_empty_selection (t : Table) : project t [] = t := by
  simp [project]

/-- C4 fails as stated: on a table with columns ["a", "b"], projecting
with the selection ["b", "a"] yields the columns in selection order
["b", "a"], not in the original table order ["a", "b"]. -/
theorem project_original_order_cex :
    (project ⟨["a", "b"], [[Cell.num 1, Cell.num 2]]⟩ ["b", "a"]).cols = ["b", "a"] ∧
      (project ⟨["a", "b"], [[Cell.num 1, Cell.num 2]]⟩ ["b", "a"]).cols ≠ ["a", "b"] := by
  decide

/-- C4 (amended): for every table and non-empty selection of its column
names, Project returns exactly the selected columns in the order of the
selection list, each holding the cells of the identically named column of
the original table. -/
theorem project_selected_columns (t : Table) (sel : List String)
    (hsel : sel ≠ []) (_hsub : ∀ c ∈ sel, c ∈ t.cols) (j : Nat) (hj : j < sel.length) :
    (project t sel).cols = sel ∧
      colCells (project t sel) j = colCells t (t.cols.indexOf (sel.getD j "")) := by
  constructor
  · simp [project, hsel]
  · simp only [project, if_neg hsel, colCells, List.map_map]
    apply List.map_congr_left
    intro r _
    simp only [Function.comp]
    rw [getD_map_lt _ sel j hj Cell.missing ""]
    rfl

/-- Witness for the amended C4 at a concrete table and selection. -/
theorem project_selected_columns_witness :
    ((["b", "a"] : List String) ≠ [] ∧
        (∀ c ∈ (["b", "a"] : List String), c ∈ (["a", "b"] : List String)) ∧
        0 < (["b", "a"] : List String).length) ∧
      ((project ⟨["a", "b"], [[Cell.num 1, Cell.num 2]]⟩ ["b", "a"]).cols = ["b", "a"] ∧
        colCells (project ⟨["a", "b"], [[Cell.num 1, Cell.num 2]]⟩ ["b", "a"]) 0 =
          colCells ⟨["a", "b"], [[Cell.num 1, Cell.num 2]]⟩
            ((["a", "b"] : List String).indexOf ((["b", "a"] : List String).getD 0 ""))) :=
  ⟨⟨by decide, by decide, by decide⟩,
    project_selected_columns ⟨["a", "b"], [[Cell.num 1, Cell.num 2]]⟩ ["b", "a"]
      (by decide) (by decide) 0 (by decide)⟩

theorem getD_mapIdx (f : Nat → Cell → Cell) (l : List Cell) (j : Nat) (hj : j < l.length)
    (d d0 : Cell) : (l.mapIdx f).getD j d = f j (l.getD j d0) := by
  have hlen : (l.mapIdx f).length = l.length := List.length_mapIdx
  rw [List.getD_eq_getElem?_getD, List.getElem?_eq_getElem (by rw [hlen]; exact hj),
    List.getD_eq_getElem?_getD, List.getElem?_eq_getElem hj]
  simp only [Option.getD_some]
  simp

theorem row_length_of_wf (t : Table) (hwf : t.WF = true) (r : Row) (hr : r ∈ t.rows) :
    r.length = t.cols.length := by
  rw [Table.WF, List.all_eq_true] at hwf
  exact of_decide_eq_true (hwf r hr)

theorem numericIdxs_ne_nil (t : Table) (j : Nat) (hj : j < t.cols.length)
    (hnum : colNumeric t j = true) : numericIdxs t ≠ [] := by
  apply List.ne_nil_of_mem
  rw [numericIdxs, List.mem_filter]
  exact ⟨List.mem_range.mpr hj, hnum⟩

theorem colCells_fillMissingValues (t : Table) (hwf : t.WF = true) (j : Nat)
    (hj : j < t.cols.length) (hnum : colNumeric t j = true) (hidx : numericIdxs t ≠ []) :
    colCells (fillMissingValues t).1 j = (colCells t j).map (fillCell (colMean t j)) := by
  simp only [fillMissingValues, if_neg hidx, colCells, List.map_map]
  apply List.map_congr_left
  intro r hr
  simp only [Function.comp]
  have hrlen : j < r.length := by
    rw [row_length_of_wf t hwf r hr]
    exact hj
  rw [getD_mapIdx _ r j hrlen Cell.missing Cell.missing, if_pos hnum]

/-- C7: for every well-formed table and numeric column with at least one
non-missing value, Fill-missing-values reports success and replaces each
missing cell of that column by the arithmetic mean — the sum of the
non-missing values of the column divided by their count, both taken at the
time of the operation — leaving every non-missing cell unchanged. -/
theorem fill_numeric_gaps_mean (t : Table) (hwf : t.WF = true) (j : Nat)
    (hj : j < t.cols.length) (hnum : colNumeric t j = true) (hvals : colVals t j ≠ []) :
    (fillMissingValues t).2 = true ∧
      colCells (fillMissingValues t).1 j =
        (colCells t j).map (fun c =>
          if c = Cell.missing
          then Cell.num ((colVals t j).sum / ((colVals t j).length : Rat))
          else c) := by
  have hidx : numericIdxs t ≠ [] := numericIdxs_ne_nil t j hj hnum
  constructor
  · simp [fillMissingValues, if_neg hidx]
  · rw [colCells_fillMissingValues t hwf j hj hnum hidx]
    apply List.map_congr_left
    intro c _
    have hmean : colMean t j = some ((colVals t j).sum / ((colVals t j).length : Rat)) := by
      rw [colMean, if_neg hvals]
    rw [hmean]
    cases c with
    | num q => simp [fillCell]
    | str s2 => simp [fillCell]
    | missing => simp [fillCell]

/-- Witness for C7 at the column [1, missing, 3], which is filled to
[1, 2, 3]. -/
theorem fill_numeric_gaps_mean_witness :
    ((⟨["a"], [[Cell.num 1], [Cell.missing], [Cell.num 3]]⟩ : Table).WF = true ∧
        0 < (⟨["a"], [[Cell.num 1], [Cell.missing], [Cell.num 3]]⟩ : Table).cols.length ∧
        colNumeric ⟨["a"], [[Cell.num 1], [Cell.missing], [Cell.num 3]]⟩ 0 = true ∧
        colVals ⟨["a"], [[Cell.num 1], [Cell.missing], [Cell.num 3]]⟩ 0 ≠ []) ∧
      colCells (fillMissingValues ⟨["a"], [[Cell.num 1], [Cell.missing], [Cell.num 3]]⟩).1 0 =
        [Cell.num 1, Cell.num 2, Cell.num 3] :=
  ⟨⟨by decide, by decide, by decide, by decide⟩, by
    have h := (fill_numeric_gaps_mean ⟨["a"], [[Cell.num 1], [Cell.missing], [Cell.num 3]]⟩
      (by decide) 0 (by decide) (by decide) (by decide)).2
    rw [h]
    norm_num [colCells, colVals, List.filterMap]
    decide⟩

/-- C8: when no column of the table is numeric, Fill-missing-values shows
the warning instead of the success message and leaves the table completely
unchanged. -/
theorem fill_no_numeric_columns (t : Table)
    (h : ∀ j < t.cols.length, colNumeric t j = false) :
    fillMissingValues t = (t, false) := by
  have hidx : numericIdxs t = [] := by
    rw [numericIdxs, List.filter_eq_nil_iff]
    intro j hj
    simp [h j (List.mem_range.mp hj)]
  rw [fillMissingValues, if_pos hidx]

/-- Witness for C8 at a table with a single text column. -/
theorem fill_no_numeric_columns_witness :
    (∀ j < (⟨["a"], [[Cell.str "x"]]⟩ : Table).cols.length,
        colNumeric ⟨["a"], [[Cell.str "x"]]⟩ j = false) ∧
      fillMissingValues ⟨["a"], [[Cell.str "x"]]⟩ = (⟨["a"], [[Cell.str "x"]]⟩, false) :=
  ⟨by decide, fill_no_numeric_columns ⟨["a"], [[Cell.str "x"]]⟩ (by decide)⟩

/-- C10: a numeric column all of whose values are missing is left all
missing by Fill-missing-values — the mean of zero non-missing values is
the missing marker, so filling with it has no effect on the column — while
the operation still reports success. -/
theorem fill_all_missing_column (t : Table) (hwf : t.WF = true) (j : Nat)
    (hj : j < t.cols.length) (hmiss : ∀ c ∈ colCells t j, c = Cell.missing) :
    (fillMissingValues t).2 = true ∧
      colCells (fillMissingValues t).1 j = colCells t j := by
  have hnum : colNumeric t j = true := by
    rw [colNumeric, List.all_eq_true]
    intro c hc
    rw [hmiss c hc]
    rfl
  have hvals : colVals t j = [] := by
    rw [colVals, List.filterMap_eq_nil_iff]
    intro c hc
    rw [hmiss c hc]
  have hmean : colMean t j = none := by
    rw [colMean, if_pos hvals]
  have hidx : numericIdxs t ≠ [] := numericIdxs_ne_nil t j hj hnum
  constructor
  · simp [fillMissingValues, if_neg hidx]
  · rw [colCells_fillMissingValues t hwf j hj hnum hidx, hmean]
    have : ∀ c ∈ colCells t j, fillCell none c = c := by
      intro c hc
      rw [hmiss c hc]
      rfl
    rw [List.map_congr_left this]
    simp

/-- Witness for C10 at a table whose single column is all missing. -/
theorem fill_all_missing_column_witness :
    ((⟨["a"], [[Cell.missing]]⟩ : Table).WF = true ∧
        0 < (⟨["a"], [[Cell.missing]]⟩ : Table).cols.length ∧
        (∀ c ∈ colCells ⟨["a"], [[Cell.missing]]⟩ 0, c = Cell.missing)) ∧
      ((fillMissingValues ⟨["a"], [[Cell.missing]]⟩).2 = true ∧
        colCells (fillMissingValues ⟨["a"], [[Cell.missing]]⟩).1 0 =
          colCells ⟨["a"], [[Cell.missing]]⟩ 0) :=
  ⟨⟨by decide, by decide, by decide⟩,
    fill_all_missing_column ⟨["a"], [[Cell.missing]]⟩ (by decide) 0 (by decide) (by decide)⟩

/-- C5: Deduplicate keeps exactly the rows that do not equal any earlier
row — the first occurrence of each distinct row — drops the rest, keeps
the surviving rows in their original relative order (they form a sublist
of the original rows), and leaves the column names untouched. -/
theorem dropDuplicates_spec (t : Table) :
    (Table.dropDuplicates t).cols = t.cols ∧
      (Table.dropDuplicates t).rows = firstOccurrences t.rows ∧
      List.Sublist (Table.dropDuplicates t).rows t.rows :=
  ⟨rfl, dedupRows_eq_firstOccurrences t.rows, dedupRows_sublist t.rows⟩

/-- C6: Deduplicate is idempotent: applying it twice to any table yields
the same table as applying it once. -/
theorem dropDuplicates_idempotent (t : Table) :
    Table.dropDuplicates (Table.dropDuplicates t) = Table.dropDuplicates t := by
  simp [Table.dropDuplicates, dedupRows_of_nodup _ (dedupRows_nodup _)]

theorem replaceAux_suffix (pat rep : List Char) (hpat : pat ≠ []) :
    ∀ (stem : List Char) (fuel : Nat), (stem ++ pat).length ≤ fuel →
      (∀ i < stem.length, pat.isPrefixOf ((stem ++ pat).drop i) = false) →
      replaceAux pat rep fuel (stem ++ pat) = stem ++ rep := by
  intro stem
  induction stem with
  | nil =>
    intro fuel hfuel hocc
    cases pat with
    | nil => exact absurd rfl hpat
    | cons p ps =>
      cases fuel with
      | zero => simp at hfuel
      | succ fl =>
        simp only [List.nil_append]
        rw [replaceAux, if_pos ⟨List.cons_ne_nil p ps, by simp⟩, List.drop_length]
        simp [replaceAux]
  | cons c stem2 ih =>
    intro fuel hfuel hocc
    cases fuel with
    | zero => simp at hfuel
    | succ fl =>
      have hnp : pat.isPrefixOf (c :: (stem2 ++ pat)) = false := by
        have h0 := hocc 0 (Nat.succ_pos _)
        simpa using h0
      have hcond : ¬ (pat ≠ [] ∧ pat.isPrefixOf (c :: (stem2 ++ pat)) = true) := by
        intro hcon
        rw [hcon.2] at hnp
        cases hnp
      simp only [List.cons_append]
      rw [replaceAux, if_neg hcond]
      have hfuel2 : (stem2 ++ pat).length ≤ fl := by
        simp only [List.cons_append, List.length_cons] at hfuel
        exact Nat.le_of_succ_le_succ hfuel
      have hocc2 : ∀ i < stem2.length, pat.isPrefixOf ((stem2 ++ pat).drop i) = false := by
        intro i hi
        have := hocc (i + 1) (by simpa using Nat.succ_lt_succ hi)
        simpa using this
      rw [ih fl hfuel2 hocc2]

/-- C2 fails as stated: converting the file "data.csv.csv" to spreadsheet
format produces the filename "data.xlsx.xlsx" — str.replace replaces every
occurrence of the extension substring — while replacing only the final
extension would give "data.csv.xlsx". The MIME type is nonetheless
correct. -/
theorem output_filename_cex :
    outputFileName ("data.csv.csv".data) TargetFormat.excel = ("data.xlsx.xlsx".data) ∧
      outputFileName ("data.csv.csv".data) TargetFormat.excel ≠ ("data.csv.xlsx".data) := by
  constructor
  · decide
  · decide

/-- C2 (amended): for a file whose name ends in its lowercased extension
and contains that extension substring nowhere else in the name, the
conversion branch produces the output filename with exactly the final
extension swapped for the extension of the target format, together with the
correct MIME type for the format: text/csv for CSV and the
openxmlformats spreadsheet type for spreadsheet. -/
theorem output_filename_mime (stem ext : List Char) (fmt : TargetFormat)
    (hext : fileExt (stem ++ ext) = ext) (hne : ext ≠ [])
    (hocc : ∀ i < stem.length, ext.isPrefixOf ((stem ++ ext).drop i) = false) :
    outputFileName (stem ++ ext) fmt = stem ++ targetExt fmt ∧
      mimeType fmt = (if fmt = TargetFormat.csv then "text/csv"
        else "application/vnd.openxmlformats-officedocument.spreadsheetml.sheet") := by
  constructor
  · rw [outputFileName, hext, pythonReplace]
    exact replaceAux_suffix ext (targetExt fmt) hne stem (stem ++ ext).length Nat.le.refl hocc
  · cases fmt with
    | csv => rfl
    | excel => rfl

/-- Witness for the amended C2 at the file "data.csv" converted to
spreadsheet format. -/
theorem output_filename_mime_witness :
    (fileExt ("data".data ++ ".csv".data) = ".csv".data ∧ (".csv".data : List Char) ≠ [] ∧
        (∀ i < ("data".data : List Char).length,
          (".csv".data : List Char).isPrefixOf (("data".data ++ ".csv".data).drop i) = false)) ∧
      (outputFileName ("data".data ++ ".csv".data) TargetFormat.excel =
          "data".data ++ targetExt TargetFormat.excel ∧
        mimeType TargetFormat.excel = (if TargetFormat.excel = TargetFormat.csv then "text/csv"
          else "application/vnd.openxmlformats-officedocument.spreadsheetml.sheet")) :=
  ⟨⟨by decide, by decide, by decide⟩,
    output_filename_mime "data".data ".csv".data TargetFormat.excel (by decide) (by decide)
      (by decide)⟩

/-- C9: a file whose extension is outside the supported set produces the
per-file unsupported-format outcome — no table, projection, cleaning,
visualization or export is produced for it — and every other file in the
batch is processed exactly as it would be with the bad file absent,
whatever the xlsx parser does. -/
theorem unsupported_file_isolated (parseXlsx : List Char → Option RawTable)
    (pre post : List (UploadedFile × FileOptions)) (f : UploadedFile) (o : FileOptions)
    (hext : fileExt f.name ≠ ".csv".data ∧ fileExt f.name ≠ ".xlsx".data) :
    processBatch parseXlsx (pre ++ (f, o) :: post) =
      processBatch parseXlsx pre ++
        Outcome.unsupported (fileExt f.name) :: processBatch parseXlsx post := by
  have hf : processFile parseXlsx f o = Outcome.unsupported (fileExt f.name) := by
    rw [processFile, if_neg]
    intro hor
    cases hor with
    | inl h1 => exact hext.1 h1
    | inr h2 => exact hext.2 h2
  simp [processBatch, hf]

/-- Witness for C9: a batch holding a valid CSV file and a ".txt" file;
the ".txt" file yields the unsupported outcome and the outcome of the CSV file
is the same as in the batch without it. -/
theorem unsupported_file_isolated_witness :
    (fileExt ("x.txt".data) ≠ ".csv".data ∧ fileExt ("x.txt".data) ≠ ".xlsx".data) ∧
      processBatch (fun _ => none)
          ([(⟨"b.csv".data, "a\n1\n".data⟩, ⟨[], false, false, TargetFormat.csv⟩)] ++
            (⟨"x.txt".data, "hi".data⟩, (⟨[], false, false, TargetFormat.csv⟩ : FileOptions)) :: []) =
        processBatch (fun _ => none)
            [(⟨"b.csv".data, "a\n1\n".data⟩, ⟨[], false, false, TargetFormat.csv⟩)] ++
          Outcome.unsupported (fileExt ("x.txt".data)) :: processBatch (fun _ => none) [] :=
  ⟨⟨by decide, by decide⟩,
    unsupported_file_isolated (fun _ => none)
      [(⟨"b.csv".data, "a\n1\n".data⟩, ⟨[], false, false, TargetFormat.csv⟩)] []
      ⟨"x.txt".data, "hi".data⟩ ⟨[], false, false, TargetFormat.csv⟩ ⟨by decide, by decide⟩⟩

/-- Witness for the amended C1 at the concrete input "a,b\n1,2\n", whose
data fields 1 and 2 are canonical numerals. -/
theorem csv_roundtrip_canonical_witness :
    (validCSV ("a,b\n1,2\n".data) = true ∧ canonicalCSV ("a,b\n1,2\n".data) = true) ∧
      ingestExportCSV ("a,b\n1,2\n".data) = some ("a,b\n1,2\n".data) :=
  ⟨⟨by decide, by decide⟩,
    csv_roundtrip_canonical ("a,b\n1,2\n".data) (by decide) (by decide)⟩

end DataSweeper
